import Mathlib

set_option linter.unusedVariables false

/-! # Verification of the address-space / translation core (translate.hh)

A shallow embedding of the data model and operations declared in
`Ghidra/Features/Decompiler/src/decompile/cpp/translate.hh`, together with
theorems settling the stated properties.  Pure inline functions of the header
are translated directly; the two join-space operations whose bodies are not
part of the excerpt (`findAddJoin`, `findJoin`) are modelled from the
specification text and marked as such in their doc comments. -/

namespace GhidraTranslate

/-- An address space handle.  The excerpt treats `AddrSpace` as an external
type whose identity is (index, name, shortcut character, byte size); the
manager owns the spaces and everything else references them by identity. -/
structure AddrSpace where
  index : Nat
  name : String
  shortcut : Char
  addrSize : Nat
deriving DecidableEq, Inhabited

/-- `VarnodeData` (from pcoderaw.hh, external to the excerpt): the canonical
(space, offset, size-in-bytes) description of one storage location.
`offset` is a `uintb` (64-bit) and `size` a `uint4`; no arithmetic overflows
occur in the operations modelled here, so plain `Nat` is used. -/
structure VarnodeData where
  space : AddrSpace
  offset : Nat
  size : Nat
deriving DecidableEq, Inhabited

/-- `Address`: an immutable (space, offset) pair. -/
structure Address where
  space : AddrSpace
  offset : Nat
deriving DecidableEq

/-- `LowlevelError` (from error.hh, external to the excerpt): base failure
record carrying a verbose description string. -/
structure LowlevelError where
  explain : String
deriving DecidableEq

/-- `UnimplError` (translate.hh lines 35-42): failure for a valid machine
instruction with no pcode translation; carries the byte length of the
unimplemented instruction so the caller can skip over it. -/
structure UnimplError extends LowlevelError where
  instruction_length : Int
deriving DecidableEq

/-- The constructor `UnimplError(s, l) : LowlevelError(s)
\x7b instruction_length = l; \x7d` (translate.hh line 41). -/
def UnimplError.make (s : String) (l : Int) : UnimplError :=
  { explain := s, instruction_length := l }

/-- The reserved tags of the packed pcode format: the anonymous enum inside
`PcodeEmit` (translate.hh lines 97-105). -/
inductive PackedTag where
  | unimpl_tag
  | inst_tag
  | op_tag
  | void_tag
  | spaceid_tag
  | addrsz_tag
  | end_tag
deriving DecidableEq

/-- The numeric byte value each reserved tag is declared with
(translate.hh lines 97-105). -/
def PackedTag.tagValue : PackedTag → Nat
  | .unimpl_tag => 0x20
  | .inst_tag => 0x21
  | .op_tag => 0x22
  | .void_tag => 0x23
  | .spaceid_tag => 0x24
  | .addrsz_tag => 0x25
  | .end_tag => 0x60

/-- `JoinRecord` (translate.hh lines 191-201): the physical pieces of a split
logical value, listed most significant first, plus the synthetic `unified`
varnode representing the whole value in the join space. -/
structure JoinRecord where
  pieces : List VarnodeData
  unified : VarnodeData
deriving DecidableEq, Inhabited

/-- `JoinRecord::numPieces` (translate.hh line 196): `return pieces.size();`
(an `int4` in the source). -/
def JoinRecord.numPieces (r : JoinRecord) : Int :=
  r.pieces.length

/-- `JoinRecord::isFloatExtension` (translate.hh line 197):
`return (pieces.size() == 1);` — the test is purely on the piece count. -/
def JoinRecord.isFloatExtension (r : JoinRecord) : Bool :=
  r.pieces.length == 1

/-- Sum of the `size` fields of a list of pieces. -/
def sumSizes (l : List VarnodeData) : Nat :=
  l.foldr (fun v acc => v.size + acc) 0

/-- `AddrSpaceManager` state (translate.hh lines 213-227).  The fields kept
here are the ones the operations in scope read or write: the ordered space
list `baselist`, the special-space references, the join-space allocation
cursor `joinallocate` and the allocation-ordered record list `splitlist`.
The `splitset` de-duplication set holds exactly the same records as
`splitlist` (both are inserted into together), ordered by the lexicographic
piece comparison `JoinRecord::operator<`; membership in it is therefore
modelled as a search of `splitlist` for a record with an identical piece
sequence.  The name and shortcut maps and the resolver list are not read by
any operation in scope and are omitted. -/
structure AddrSpaceManager where
  baselist : List AddrSpace
  constantspace : AddrSpace
  defaultspace : AddrSpace
  iopspace : AddrSpace
  fspecspace : AddrSpace
  joinspace : AddrSpace
  stackspace : AddrSpace
  uniqspace : AddrSpace
  joinallocate : Nat
  splitlist : List JoinRecord
deriving DecidableEq

/-- `AddrSpaceManager::numSpaces` (translate.hh lines 513-515):
`return baselist.size();` (an `int4` in the source). -/
def AddrSpaceManager.numSpaces (m : AddrSpaceManager) : Int :=
  m.baselist.length

/-- Possible outcomes of a space lookup.  A C++ `AddrSpace *` result is
either a valid space or the null sentinel that the recoverable lookups
return on a miss; an out-of-range access into the backing vector produces no
pointer value at all and is recorded by the third constructor. -/
inductive SpaceResult where
  | space (s : AddrSpace)
  | null
  | outOfBounds
deriving DecidableEq

/-- `AddrSpaceManager::getSpace` (translate.hh lines 522-524):
`return baselist[i];`.  The vector access is unchecked in the source, so an
index outside `[0, numSpaces())` is an out-of-bounds access with no defined
result, modelled by `SpaceResult.outOfBounds`; no null sentinel is ever
produced by this function. -/
def AddrSpaceManager.getSpace (m : AddrSpaceManager) (i : Int) : SpaceResult :=
  if 0 ≤ i ∧ i < (m.baselist.length : Int) then
    SpaceResult.space (m.baselist.getD i.toNat default)
  else
    SpaceResult.outOfBounds

/-- `AddrSpaceManager::getConstant` (translate.hh lines 495-497):
`return Address(constantspace, val);`. -/
def AddrSpaceManager.getConstant (m : AddrSpaceManager) (val : Nat) : Address :=
  { space := m.constantspace, offset := val }

/-- The pointer-to-integer cast `(uintb)(uintp)spc` used by
`createConstFromSpace`.  A live `AddrSpace` object has a unique pointer
value; within one manager the space index is an injective identity, so the
cast is modelled by the index. -/
def spacePtrVal (spc : AddrSpace) : Nat :=
  spc.index

/-- `AddrSpaceManager::createConstFromSpace` (translate.hh lines 505-507):
`return Address(constantspace, (uintb)(uintp)spc);`. -/
def AddrSpaceManager.createConstFromSpace (m : AddrSpaceManager) (spc : AddrSpace) : Address :=
  { space := m.constantspace, offset := spacePtrVal spc }

/-- Membership test of a piece sequence in the de-duplication set
`splitset` (translate.hh line 226).  Set membership is decided by the
lexicographic comparison of the piece sequences, whose induced equivalence
is exact equality of the sequences (same order, spaces, offsets, sizes);
since `splitset` and `splitlist` hold the same records, the lookup is a
search of `splitlist`. -/
def AddrSpaceManager.findPieces (m : AddrSpaceManager) (pieces : List VarnodeData) :
    Option JoinRecord :=
  m.splitlist.find? (fun r => decide (r.pieces = pieces))

/-- Modelled from the spec: `AddrSpaceManager::findAddJoin` — only its
declaration (translate.hh line 257) is in the excerpt.  Per the
specification: canonicalize the piece list and look it up in the
de-duplication set; on a hit return the existing record unchanged; on a miss
allocate the next offset in the join space (`joinallocate`, monotonically
increasing, never reclaimed), build the unified varnode with size
`max(sum of piece sizes, logicalsize)` to support the float-extension case,
insert the new record into both the set and the offset-indexed list, and
return it.  The spec fixes only that the cursor is monotonic and offsets are
never reclaimed; the model advances it by the unified size, the smallest
stride that keeps allocated ranges disjoint. -/
def AddrSpaceManager.findAddJoin (m : AddrSpaceManager) (pieces : List VarnodeData)
    (logicalsize : Nat) : JoinRecord × AddrSpaceManager :=
  match m.findPieces pieces with
  | some r => (r, m)
  | none =>
      let totalsize := max (sumSizes pieces) logicalsize
      let newjoin : JoinRecord :=
        { pieces := pieces
          unified := { space := m.joinspace, offset := m.joinallocate, size := totalsize } }
      (newjoin,
       { m with
           joinallocate := m.joinallocate + totalsize
           splitlist := m.splitlist ++ [newjoin] })

/-- Modelled from the spec: `AddrSpaceManager::findJoin` — only its
declaration (translate.hh line 258) is in the excerpt.  Per the
specification: reverse lookup from a join-space offset back to its
`JoinRecord`, succeeding for every offset inside the allocated range of a
record's unified location and failing with a not-found result for offsets
never allocated. -/
def AddrSpaceManager.findJoin (m : AddrSpaceManager) (offset : Nat) : Option JoinRecord :=
  m.splitlist.find?
    (fun r => decide (r.unified.offset ≤ offset ∧ offset < r.unified.offset + r.unified.size))

/-- Two varnodes occupy non-overlapping offset ranges. -/
def disjointRanges (a b : VarnodeData) : Prop :=
  a.offset + a.size ≤ b.offset ∨ b.offset + b.size ≤ a.offset

/-- Join-space allocation invariant of a manager state: every allocated
record ends at or before the allocation cursor, records appear in `splitlist`
in increasing, non-overlapping offset order, and every unified varnode lives
in the join space.  It holds of a freshly constructed manager (empty
`splitlist`, cursor at zero) and is preserved by `findAddJoin`. -/
def JoinInv (m : AddrSpaceManager) : Prop :=
  (∀ r ∈ m.splitlist, r.unified.offset + r.unified.size ≤ m.joinallocate) ∧
  m.splitlist.Pairwise
    (fun a b => a.unified.offset + a.unified.size ≤ b.unified.offset) ∧
  (∀ r ∈ m.splitlist, r.unified.space = m.joinspace)

/-- `Translate` state (translate.hh lines 280-285) on top of the manager:
the endianness flag, the unique-space base offset (`uintm`, compared but
never subject to arithmetic here, hence `Nat`) and the instruction
alignment.  The float format list is only touched by operations outside the
scope of the stated properties and is omitted. -/
structure Translate extends AddrSpaceManager where
  target_isbigendian : Bool
  unique_base : Nat
  alignment : Int
deriving DecidableEq

/-- `Translate::registerContext` (translate.hh line 314): the base-class
implementation has an empty body. -/
def Translate.registerContext (t : Translate) (name : String) (sbit ebit : Int) : Translate :=
  t

/-- `Translate::setContextDefault` (translate.hh line 323): the base-class
implementation has an empty body. -/
def Translate.setContextDefault (t : Translate) (name : String) (val : Nat) : Translate :=
  t

/-- `Translate::setUniqueBase` (translate.hh lines 541-543):
`if (val > unique_base) unique_base = val;`. -/
def Translate.setUniqueBase (t : Translate) (val : Nat) : Translate :=
  if val > t.unique_base then { t with unique_base := val } else t

/-- `Translate::getUniqueBase` (translate.hh lines 569-571):
`return unique_base;`. -/
def Translate.getUniqueBase (t : Translate) : Nat :=
  t.unique_base

/-! ## Concrete sample data for witnesses and counterexamples -/

/-- A sample constant space. -/
def constSpc : AddrSpace := { index := 0, name := "const", shortcut := '#', addrSize := 8 }

/-- A sample unique (temporary register) space. -/
def uniqSpc : AddrSpace := { index := 1, name := "unique", shortcut := 'u', addrSize := 4 }

/-- A sample join space. -/
def joinSpc : AddrSpace := { index := 2, name := "join", shortcut := 'j', addrSize := 8 }

/-- A sample RAM (default) space. -/
def ramSpc : AddrSpace := { index := 3, name := "ram", shortcut := 'r', addrSize := 4 }

/-- A sample register space. -/
def regSpc : AddrSpace := { index := 4, name := "register", shortcut := '%', addrSize := 4 }

/-- A freshly initialized sample manager: five spaces registered, no join
records allocated yet. -/
def initManager : AddrSpaceManager :=
  { baselist := [constSpc, uniqSpc, joinSpc, ramSpc, regSpc]
    constantspace := constSpc
    defaultspace := ramSpc
    iopspace := constSpc
    fspecspace := constSpc
    joinspace := joinSpc
    stackspace := ramSpc
    uniqspace := uniqSpc
    joinallocate := 0
    splitlist := [] }

/-- A 4-byte register piece at offset 0. -/
def pieceR0 : VarnodeData := { space := regSpc, offset := 0, size := 4 }

/-- A 4-byte register piece at offset 4. -/
def pieceR1 : VarnodeData := { space := regSpc, offset := 4, size := 4 }

/-- A 4-byte register piece at offset 8. -/
def pieceR2 : VarnodeData := { space := regSpc, offset := 8, size := 4 }

/-- A sample translator over `initManager` with a reserved unique region of
256 bytes. -/
def initTranslate : Translate :=
  { toAddrSpaceManager := initManager
    target_isbigendian := false
    unique_base := 256
    alignment := 1 }

/-- A one-piece join record whose unified size equals the piece size: the
shape produced by `findAddJoin` for a single 4-byte piece with
`logicalsize = 4`. -/
def floatCand : JoinRecord :=
  { pieces := [pieceR0]
    unified := { space := joinSpc, offset := 0, size := 4 } }

/-! ## Helper lemmas -/

/-- A hit in the de-duplication set yields a stored record whose piece
sequence is the one looked up. -/
theorem findPieces_some {m : AddrSpaceManager} {P : List VarnodeData} {r : JoinRecord}
    (h : m.findPieces P = some r) : r ∈ m.splitlist ∧ r.pieces = P := by
  unfold AddrSpaceManager.findPieces at h
  have hp := List.find?_some h
  simp only [decide_eq_true_eq] at hp
  exact ⟨List.mem_of_find?_eq_some h, hp⟩

/-- Searching past a prefix in which the predicate never holds. -/
theorem find_skip_left {α : Type} (p : α → Bool) {l₁ : List α} (l₂ : List α)
    (h : l₁.find? p = none) : (l₁ ++ l₂).find? p = l₂.find? p := by
  rw [List.find?_append, h, Option.none_or]

/-- On a de-duplication hit, `findAddJoin` returns the stored record and
leaves the manager untouched. -/
theorem findAddJoin_hit {m : AddrSpaceManager} {P : List VarnodeData} {r : JoinRecord}
    (ls : Nat) (h : m.findPieces P = some r) : m.findAddJoin P ls = (r, m) := by
  simp [AddrSpaceManager.findAddJoin, h]

/-- On a de-duplication miss, `findAddJoin` allocates a fresh record at the
current cursor and appends it. -/
theorem findAddJoin_miss {m : AddrSpaceManager} {P : List VarnodeData}
    (ls : Nat) (h : m.findPieces P = none) :
    m.findAddJoin P ls =
      ({ pieces := P
         unified := { space := m.joinspace, offset := m.joinallocate
                      size := max (sumSizes P) ls } },
       { m with
           joinallocate := m.joinallocate + max (sumSizes P) ls
           splitlist := m.splitlist ++
             [{ pieces := P
                unified := { space := m.joinspace, offset := m.joinallocate
                             size := max (sumSizes P) ls } }] }) := by
  simp [AddrSpaceManager.findAddJoin, h]

/-- The record returned by `findAddJoin` always carries the submitted piece
sequence. -/
theorem findAddJoin_pieces (m : AddrSpaceManager) (P : List VarnodeData) (ls : Nat) :
    ((m.findAddJoin P ls).1).pieces = P := by
  cases h : m.findPieces P with
  | some r => rw [findAddJoin_hit ls h]; exact (findPieces_some h).2
  | none => rw [findAddJoin_miss ls h]

/-- Two distinct members of a pairwise-related list are related one way or
the other. -/
theorem pairwise_rel_of_mem {α : Type} {R : α → α → Prop} {l : List α}
    (h : l.Pairwise R) : ∀ {a b : α}, a ∈ l → b ∈ l → a ≠ b → R a b ∨ R b a := by
  induction h with
  | nil => intro a b ha _ _; cases ha
  | cons hx _ ih =>
      intro a b ha hb hne
      rcases List.mem_cons.mp ha with rfl | ha2
      · rcases List.mem_cons.mp hb with rfl | hb2
        · exact absurd rfl hne
        · exact Or.inl (hx _ hb2)
      · rcases List.mem_cons.mp hb with rfl | hb2
        · exact Or.inr (hx _ ha2)
        · exact ih ha2 hb2 hne

/-- The allocation invariant holds of the freshly initialized sample
manager. -/
theorem JoinInv_init : JoinInv initManager := by
  unfold JoinInv
  refine ⟨?_, ?_, ?_⟩
  · intro r hr; simp [initManager] at hr
  · exact List.Pairwise.nil
  · intro r hr; simp [initManager] at hr

/-- `setUniqueBase` computes the maximum of the stored base and the
argument. -/
theorem setUniqueBase_base (t : Translate) (v : Nat) :
    (t.setUniqueBase v).unique_base = max t.unique_base v := by
  unfold Translate.setUniqueBase
  split
  · next h => exact (max_eq_right (le_of_lt h)).symm
  · next h => exact (max_eq_left (le_of_not_lt h)).symm

/-- Folding `setUniqueBase` over a list of values folds `max` over the
stored base. -/
theorem foldl_setUniqueBase (vals : List Nat) : ∀ t : Translate,
    (vals.foldl Translate.setUniqueBase t).unique_base = vals.foldl max t.unique_base := by
  induction vals with
  | nil => intro t; rfl
  | cons v vs ih =>
      intro t
      rw [List.foldl_cons, List.foldl_cons, ih, setUniqueBase_base]

/-! ## Claim theorems -/

/-- C2: the reserved tag byte values of the packed pcode encoding are
exactly unimpl = 0x20, inst = 0x21, op = 0x22, void = 0x23, spaceid = 0x24,
addrsz = 0x25 and end = 0x60. -/
theorem packed_tag_values :
    PackedTag.tagValue .unimpl_tag = 0x20 ∧
    PackedTag.tagValue .inst_tag = 0x21 ∧
    PackedTag.tagValue .op_tag = 0x22 ∧
    PackedTag.tagValue .void_tag = 0x23 ∧
    PackedTag.tagValue .spaceid_tag = 0x24 ∧
    PackedTag.tagValue .addrsz_tag = 0x25 ∧
    PackedTag.tagValue .end_tag = 0x60 :=
  ⟨rfl, rfl, rfl, rfl, rfl, rfl, rfl⟩

/-- C3 counterexample: a one-piece record whose unified size equals the
piece size (the shape `findAddJoin` produces for one 4-byte piece with
logicalsize 4) is reported as a float extension even though its unified size
is not strictly greater than the piece size, so `isFloatExtension` is not
equivalent to the spec condition (exactly one piece and unified size
strictly greater). -/
theorem isFloatExtension_ignores_size :
    floatCand.isFloatExtension = true ∧
    ¬ ((floatCand.pieces.headD default).size < floatCand.unified.size) := by
  decide

/-- C3 (amended): `isFloatExtension` returns true exactly when the record
has exactly one piece, with no check of the size relation; a record newly
created by `findAddJoin` with logicalsize at most the sum of the piece sizes
has unified size equal to that sum. -/
theorem isFloatExtension_piece_count :
    (∀ r : JoinRecord, r.isFloatExtension = true ↔ r.numPieces = 1) ∧
    (∀ (m : AddrSpaceManager) (P : List VarnodeData) (ls : Nat),
      m.findPieces P = none → ls ≤ sumSizes P →
      ((m.findAddJoin P ls).1).unified.size = sumSizes P) := by
  constructor
  · intro r
    unfold JoinRecord.isFloatExtension JoinRecord.numPieces
    simp only [beq_iff_eq]
    omega
  · intro m P ls hmiss hls
    rw [findAddJoin_miss ls hmiss]
    exact max_eq_left hls

/-- C3 witness: the amended statement applied to the biconditional at a
concrete record and to a fresh two-piece join with logicalsize 0. -/
theorem isFloatExtension_piece_count_witness :
    (floatCand.isFloatExtension = true ↔ floatCand.numPieces = 1) ∧
    ((initManager.findAddJoin [pieceR0, pieceR1] 0).1).unified.size
      = sumSizes [pieceR0, pieceR1] :=
  ⟨isFloatExtension_piece_count.1 floatCand,
   isFloatExtension_piece_count.2 initManager [pieceR0, pieceR1] 0 (by decide) (by decide)⟩

/-- C5 counterexample: on the sample manager (five registered spaces) the
out-of-range index 7 is an unchecked out-of-bounds vector access, not the
recoverable null result the lookups by name or shortcut return, so the claim
that `getSpace` yields a recoverable sentinel for unregistered indices
fails. -/
theorem getSpace_oob_not_null :
    initManager.getSpace 7 = SpaceResult.outOfBounds ∧
    initManager.getSpace 7 ≠ SpaceResult.null ∧
    initManager.getSpace (-1) ≠ SpaceResult.null := by
  decide

/-- C5 (amended): for every registered index `getSpace` returns the space at
that position of the ordered space list; for every index outside
`[0, numSpaces())` the unchecked vector access is out of bounds, producing
no recoverable result. -/
theorem getSpace_index (m : AddrSpaceManager) (i : Int) :
    (0 ≤ i → i < m.numSpaces →
      m.getSpace i = SpaceResult.space (m.baselist.getD i.toNat default)) ∧
    (i < 0 ∨ m.numSpaces ≤ i → m.getSpace i = SpaceResult.outOfBounds) := by
  unfold AddrSpaceManager.getSpace AddrSpaceManager.numSpaces
  constructor
  · intro h1 h2
    rw [if_pos ⟨h1, h2⟩]
  · intro h
    rw [if_neg (by omega)]

/-- C5 witness: index 1 of the sample manager resolves to the second
registered space; index 9 is out of bounds. -/
theorem getSpace_index_witness :
    initManager.getSpace 1
      = SpaceResult.space (initManager.baselist.getD (1 : Int).toNat default) ∧
    initManager.getSpace 9 = SpaceResult.outOfBounds :=
  ⟨(getSpace_index initManager 1).1 (by decide) (by decide),
   (getSpace_index initManager 9).2 (by decide)⟩

/-- C7: `getConstant` encodes a value as an address in the constant space
with the value as offset, and `createConstFromSpace` encodes a space as an
address in the constant space whose offset is the space identity. -/
theorem constant_encoding (m : AddrSpaceManager) (val : Nat) (spc : AddrSpace) :
    (m.getConstant val).space = m.constantspace ∧
    (m.getConstant val).offset = val ∧
    (m.createConstFromSpace spc).space = m.constantspace ∧
    (m.createConstFromSpace spc).offset = spacePtrVal spc :=
  ⟨rfl, rfl, rfl, rfl⟩

/-- C8: for every message and length, the constructed `UnimplError` carries
the instruction length (and the message). -/
theorem unimplError_carries_length (s : String) (l : Int) :
    (UnimplError.make s l).instruction_length = l ∧
    (UnimplError.make s l).explain = s :=
  ⟨rfl, rfl⟩

/-- C9: the base-class implementations of `registerContext` and
`setContextDefault` are no-ops on the whole translator state. -/
theorem context_ops_noop (t : Translate) (nm : String) (sbit ebit : Int) (val : Nat) :
    t.registerContext nm sbit ebit = t ∧ t.setContextDefault nm val = t :=
  ⟨rfl, rfl⟩

/-- C10: `setUniqueBase` raises the unique-space base to the maximum of its
current value and the argument, a call with a value not above the current
base leaves the state unchanged, and after any sequence of calls
`getUniqueBase` reports the largest value ever passed or the initial value
if larger. -/
theorem setUniqueBase_monotone (t : Translate) (val : Nat) (vals : List Nat) :
    (t.setUniqueBase val).unique_base = max t.unique_base val ∧
    (val ≤ t.unique_base → t.setUniqueBase val = t) ∧
    (vals.foldl Translate.setUniqueBase t).getUniqueBase = vals.foldl max t.unique_base := by
  refine ⟨setUniqueBase_base t val, ?_, ?_⟩
  · intro h
    unfold Translate.setUniqueBase
    rw [if_neg (not_lt.mpr h)]
  · unfold Translate.getUniqueBase
    exact foldl_setUniqueBase vals t

/-- C10 witness: on the sample translator (base 256) a call with 7 changes
nothing, and a concrete call sequence yields the running maximum. -/
theorem setUniqueBase_monotone_witness :
    initTranslate.setUniqueBase 7 = initTranslate ∧
    (([300, 20, 1000] : List Nat).foldl Translate.setUniqueBase initTranslate).getUniqueBase
      = ([300, 20, 1000] : List Nat).foldl max initTranslate.unique_base :=
  ⟨(setUniqueBase_monotone initTranslate 7 []).2.1 (by decide),
   (setUniqueBase_monotone initTranslate 7 [300, 20, 1000]).2.2⟩

/-- C1: submitting the same piece sequence twice yields the identical
record both times, and the second call leaves the manager — in particular
the join-space allocation cursor `joinallocate` — unchanged, so at most one
record exists per distinct piece sequence. -/
theorem findAddJoin_dedup (m : AddrSpaceManager) (P : List VarnodeData) (ls : Nat) :
    ((m.findAddJoin P ls).2).findAddJoin P ls
      = ((m.findAddJoin P ls).1, (m.findAddJoin P ls).2) ∧
    (((m.findAddJoin P ls).2).findAddJoin P ls).2.joinallocate
      = ((m.findAddJoin P ls).2).joinallocate := by
  have key : ((m.findAddJoin P ls).2).findPieces P = some (m.findAddJoin P ls).1 := by
    cases h : m.findPieces P with
    | some r => rw [findAddJoin_hit ls h]; exact h
    | none =>
        rw [findAddJoin_miss ls h]
        unfold AddrSpaceManager.findPieces at h ⊢
        dsimp only
        rw [find_skip_left _ _ h]
        simp
  have h2 := findAddJoin_hit ls key
  exact ⟨h2, by rw [h2]⟩

/-- C4: from a state satisfying the allocation invariant, submitting two
distinct piece sequences in turn yields distinct records whose unified
locations lie in the join space and occupy non-overlapping offset ranges. -/
theorem findAddJoin_disjoint (m : AddrSpaceManager) (P1 P2 : List VarnodeData)
    (ls1 ls2 : Nat) (r1 r2 : JoinRecord) (m1 m2 : AddrSpaceManager)
    (hinv : JoinInv m) (hne : P1 ≠ P2)
    (e1 : m.findAddJoin P1 ls1 = (r1, m1)) (e2 : m1.findAddJoin P2 ls2 = (r2, m2)) :
    r1 ≠ r2 ∧ disjointRanges r1.unified r2.unified ∧
    r1.unified.space = m.joinspace ∧ r2.unified.space = m.joinspace := by
  obtain ⟨hbound, hpair, hspace⟩ := hinv
  have hp1 : r1.pieces = P1 := by
    have h := findAddJoin_pieces m P1 ls1
    rw [e1] at h
    exact h
  have hp2 : r2.pieces = P2 := by
    have h := findAddJoin_pieces m1 P2 ls2
    rw [e2] at h
    exact h
  have rneq : r1 ≠ r2 := by
    intro h
    apply hne
    rw [← hp1, ← hp2, h]
  refine ⟨rneq, ?_⟩
  cases h1 : m.findPieces P1 with
  | some s1 =>
      have h := (findAddJoin_hit ls1 h1).symm.trans e1
      rw [Prod.mk.injEq] at h
      obtain ⟨er1, em1⟩ := h
      subst er1
      subst em1
      obtain ⟨hmem1, -⟩ := findPieces_some h1
      cases h2 : m.findPieces P2 with
      | some s2 =>
          have h' := (findAddJoin_hit ls2 h2).symm.trans e2
          rw [Prod.mk.injEq] at h'
          obtain ⟨er2, em2⟩ := h'
          subst er2
          obtain ⟨hmem2, -⟩ := findPieces_some h2
          rcases pairwise_rel_of_mem hpair hmem1 hmem2 rneq with hd | hd
          · exact ⟨Or.inl hd, hspace _ hmem1, hspace _ hmem2⟩
          · exact ⟨Or.inr hd, hspace _ hmem1, hspace _ hmem2⟩
      | none =>
          have h' := (findAddJoin_miss ls2 h2).symm.trans e2
          rw [Prod.mk.injEq] at h'
          obtain ⟨er2, em2⟩ := h'
          subst er2
          refine ⟨Or.inl ?_, hspace _ hmem1, rfl⟩
          exact hbound _ hmem1
  | none =>
      have h := (findAddJoin_miss ls1 h1).symm.trans e1
      rw [Prod.mk.injEq] at h
      obtain ⟨er1, em1⟩ := h
      subst er1
      subst em1
      have hsplit :
          ({ m with
              joinallocate := m.joinallocate + max (sumSizes P1) ls1
              splitlist := m.splitlist ++
                [{ pieces := P1
                   unified := { space := m.joinspace, offset := m.joinallocate
                                size := max (sumSizes P1) ls1 } }] } :
            AddrSpaceManager).splitlist
          = m.splitlist ++
            [{ pieces := P1
               unified := { space := m.joinspace, offset := m.joinallocate
                            size := max (sumSizes P1) ls1 } }] := rfl
      cases h2 : ({ m with
              joinallocate := m.joinallocate + max (sumSizes P1) ls1
              splitlist := m.splitlist ++
                [{ pieces := P1
                   unified := { space := m.joinspace, offset := m.joinallocate
                                size := max (sumSizes P1) ls1 } }] } :
            AddrSpaceManager).findPieces P2 with
      | some s2 =>
          have h' := (findAddJoin_hit ls2 h2).symm.trans e2
          rw [Prod.mk.injEq] at h'
          obtain ⟨er2, em2⟩ := h'
          subst er2
          obtain ⟨hmem2, hsp2⟩ := findPieces_some h2
          rw [hsplit] at hmem2
          rcases List.mem_append.mp hmem2 with hmem2 | hmem2
          · refine ⟨Or.inr ?_, rfl, hspace _ hmem2⟩
            exact hbound _ hmem2
          · exfalso
            apply hne
            have hps : s2.pieces = P1 := by
              rcases List.mem_singleton.mp hmem2 with rfl
              rfl
            rw [← hps, hsp2]
      | none =>
          have h' := (findAddJoin_miss ls2 h2).symm.trans e2
          rw [Prod.mk.injEq] at h'
          obtain ⟨er2, em2⟩ := h'
          subst er2
          refine ⟨Or.inl ?_, rfl, rfl⟩
          exact le_refl _

/-- C6: from a state satisfying the allocation invariant, `findJoin` on an
offset at or past the allocation cursor — one never allocated — returns the
not-found result rather than failing fatally; and after a fresh
`findAddJoin` with a positive unified size, `findJoin` on the allocated
offset returns the record just created. -/
theorem findJoin_lookup (m : AddrSpaceManager) (off : Nat) (P : List VarnodeData)
    (ls : Nat) (r : JoinRecord) (m1 : AddrSpaceManager) (hinv : JoinInv m) :
    (m.joinallocate ≤ off → m.findJoin off = none) ∧
    (m.findPieces P = none → 0 < max (sumSizes P) ls →
      m.findAddJoin P ls = (r, m1) → m1.findJoin r.unified.offset = some r) := by
  obtain ⟨hbound, hpair, hspace⟩ := hinv
  constructor
  · intro hoff
    unfold AddrSpaceManager.findJoin
    rw [List.find?_eq_none]
    intro x hx
    simp only [decide_eq_true_eq, not_and, not_lt]
    intro h1
    have := hbound x hx
    omega
  · intro hmiss hpos e
    have h := (findAddJoin_miss ls hmiss).symm.trans e
    rw [Prod.mk.injEq] at h
    obtain ⟨er, em⟩ := h
    subst er
    subst em
    unfold AddrSpaceManager.findJoin
    dsimp only
    rw [find_skip_left]
    · rw [List.find?_cons_of_pos]
      simp only [decide_eq_true_eq]
      exact ⟨le_refl _, by omega⟩
    · rw [List.find?_eq_none]
      intro x hx
      simp only [decide_eq_true_eq, not_and, not_lt]
      intro h1
      have := hbound x hx
      omega

/-- C4 witness: two distinct single-piece sequences submitted to the sample
manager yield distinct, disjoint join-space records. -/
theorem findAddJoin_disjoint_witness :
    (initManager.findAddJoin [pieceR0] 0).1
        ≠ (((initManager.findAddJoin [pieceR0] 0).2).findAddJoin [pieceR1] 0).1 ∧
    disjointRanges ((initManager.findAddJoin [pieceR0] 0).1).unified
      ((((initManager.findAddJoin [pieceR0] 0).2).findAddJoin [pieceR1] 0).1).unified ∧
    ((initManager.findAddJoin [pieceR0] 0).1).unified.space = initManager.joinspace ∧
    ((((initManager.findAddJoin [pieceR0] 0).2).findAddJoin [pieceR1] 0).1).unified.space
      = initManager.joinspace :=
  findAddJoin_disjoint initManager [pieceR0] [pieceR1] 0 0
    (initManager.findAddJoin [pieceR0] 0).1
    (((initManager.findAddJoin [pieceR0] 0).2).findAddJoin [pieceR1] 0).1
    (initManager.findAddJoin [pieceR0] 0).2
    (((initManager.findAddJoin [pieceR0] 0).2).findAddJoin [pieceR1] 0).2
    JoinInv_init (by decide) rfl rfl

/-- C6 witness: on the sample manager the never-allocated offset 3 is a
lookup miss, and after joining one fresh piece the allocated offset resolves
back to the record just created. -/
theorem findJoin_lookup_witness :
    initManager.findJoin 3 = none ∧
    ((initManager.findAddJoin [pieceR2] 8).2).findJoin
        (((initManager.findAddJoin [pieceR2] 8).1).unified.offset)
      = some (initManager.findAddJoin [pieceR2] 8).1 :=
  ⟨(findJoin_lookup initManager 3 [pieceR2] 8 (initManager.findAddJoin [pieceR2] 8).1
      (initManager.findAddJoin [pieceR2] 8).2 JoinInv_init).1 (by decide),
   (findJoin_lookup initManager 3 [pieceR2] 8 (initManager.findAddJoin [pieceR2] 8).1
      (initManager.findAddJoin [pieceR2] 8).2 JoinInv_init).2 (by decide) (by decide) rfl⟩

end GhidraTranslate
